import Mathlib

/-!
Verification of the bisection-method repository (`bisection-method.py`).

The source is embedded shallowly over exact rational arithmetic: the Python
floats of the program are modelled as `ℚ`, the iteration loop as a
fuel-indexed structural recursion, the `ValueError` raised by the bracket
precondition and the `UnboundLocalError` raised when `max_iterations = 0`
as an `Except` error, and the three console banners printed at termination
("Exact root found", "Convergence achieved", "Maximum iterations reached")
as a `StopReason` value.
-/

/-- The target function of the source, `f(x) = x**3 + 4*x` (line 11). -/
def f (x : ℚ) : ℚ := x ^ 3 + 4 * x

/-- One row of `history` (lines 46-53): the dict appended once per loop pass. -/
structure IterationRecord where
  iteration : ℕ
  a : ℚ
  b : ℚ
  midpoint : ℚ
  f_mid : ℚ
  error : ℚ
deriving DecidableEq, Repr

/-- The exact-root threshold `1e-15` of line 58. -/
def exactTol : ℚ := 1 / 10 ^ 15

/-- Which console banner the loop printed when it stopped: "Exact root
found!" (line 59), "Convergence achieved!" (line 64), or the `for`-`else`
banner "Maximum iterations reached!" (line 75). -/
inductive StopReason where
  | exactRoot
  | converged
  | exhausted
deriving DecidableEq, Repr

/-- The exceptions `bisection_method` can raise: the `ValueError` of line 30
carrying both bound values and their function values, and the
`UnboundLocalError` that `return midpoint, history` (line 77) raises when
`max_iterations = 0`, because then the loop body never assigned `midpoint`. -/
inductive PyError where
  | invalidBracket (a fa b fb : ℚ)
  | unboundLocal
deriving DecidableEq, Repr

/-- The `for i in range(max_iterations)` loop of lines 40-75, as structural
recursion on the remaining fuel.  Arguments after `f` and `tolerance`: the
remaining fuel, the `iteration` counter (lines 38 and 73), the bracket
bounds `a` and `b`, the accumulated `history`, and the current value of the
local variable `midpoint` (`none` while still unassigned).  Returns the
final `midpoint`, the history, and the banner printed on termination. -/
def bisection_loop (f : ℚ → ℚ) (tolerance : ℚ) :
    ℕ → ℕ → ℚ → ℚ → List IterationRecord → Option ℚ →
    Option ℚ × List IterationRecord × StopReason
  | 0, _, _, _, history, m => (m, history, StopReason.exhausted)
  | fuel + 1, iteration, a, b, history, _ =>
    let midpoint := (a + b) / 2
    let f_mid := f midpoint
    let error := |b - a|
    let history2 := history ++ [⟨iteration, a, b, midpoint, f_mid, error⟩]
    if |f_mid| < exactTol then
      (some midpoint, history2, StopReason.exactRoot)
    else if error < tolerance then
      (some midpoint, history2, StopReason.converged)
    else if f a * f_mid < 0 then
      bisection_loop f tolerance fuel (iteration + 1) a midpoint history2 (some midpoint)
    else
      bisection_loop f tolerance fuel (iteration + 1) midpoint b history2 (some midpoint)

/-- `bisection_method` (lines 13-77): the precondition check of lines 29-30,
then the iteration loop, then `return midpoint, history` (line 77), which
raises `UnboundLocalError` when the loop body never ran. -/
def bisection_method (f : ℚ → ℚ) (a b : ℚ) (tolerance : ℚ) (max_iterations : ℕ) :
    Except PyError (ℚ × List IterationRecord × StopReason) :=
  if f a * f b ≥ 0 then
    Except.error (PyError.invalidBracket a (f a) b (f b))
  else
    match bisection_loop f tolerance max_iterations 0 a b [] none with
    | (some midpoint, history, reason) => Except.ok (midpoint, history, reason)
    | (none, _, _) => Except.error PyError.unboundLocal

/-- Models line 171 of the source, `if NameError== "__main__":`.  In Python
this compares the builtin exception class `NameError` with the string
`"__main__"`; a type object never equals a string, so the condition is
`False` in every execution context (it was evidently meant to read
`__name__ == "__main__"`), and the guard never fires. -/
def module_guard_fires : Bool := false

/-- The call `main()` would make into the algorithm (line 150, with the
parameters of lines 144-146): `bisection_method(f, -2, 2, 1e-6, 50)`. -/
def main_call : Except PyError (ℚ × List IterationRecord × StopReason) :=
  bisection_method f (-2) 2 (1 / 1000000) 50

/-- What running the module directly executes (lines 171-172): `main()` is
invoked only if the module guard fires, otherwise nothing runs. -/
def executed_directly : Option (Except PyError (ℚ × List IterationRecord × StopReason)) :=
  if module_guard_fires then some main_call else none

/-- Wellformedness of an appended record: its fields were computed from its
own bounds as in lines 41-43, and its bracket satisfied the sign-change
invariant at entry to the pass. -/
def recordP (f : ℚ → ℚ) (r : IterationRecord) : Prop :=
  r.midpoint = (r.a + r.b) / 2 ∧ r.f_mid = f r.midpoint ∧ r.error = |r.b - r.a| ∧
    f r.a * f r.b < 0

/-- The relation between the `error` fields of successive history records. -/
def errRel (r r2 : IterationRecord) : Prop :=
  r2.error = r.error / 2 ∧ r2.error ≤ r.error

lemma loop_zero (g : ℚ → ℚ) (tol : ℚ) (it : ℕ) (a b : ℚ) (hist : List IterationRecord)
    (m : Option ℚ) : bisection_loop g tol 0 it a b hist m = (m, hist, StopReason.exhausted) := rfl

lemma loop_step_exact (g : ℚ → ℚ) (tol : ℚ) (n it : ℕ) (a b : ℚ) (hist : List IterationRecord)
    (m : Option ℚ) (h : |g ((a + b) / 2)| < exactTol) :
    bisection_loop g tol (n + 1) it a b hist m =
      (some ((a + b) / 2), hist ++ [⟨it, a, b, (a + b) / 2, g ((a + b) / 2), |b - a|⟩],
        StopReason.exactRoot) := by
  simp only [bisection_loop]
  rw [if_pos h]

lemma loop_step_conv (g : ℚ → ℚ) (tol : ℚ) (n it : ℕ) (a b : ℚ) (hist : List IterationRecord)
    (m : Option ℚ) (h1 : exactTol ≤ |g ((a + b) / 2)|) (h2 : |b - a| < tol) :
    bisection_loop g tol (n + 1) it a b hist m =
      (some ((a + b) / 2), hist ++ [⟨it, a, b, (a + b) / 2, g ((a + b) / 2), |b - a|⟩],
        StopReason.converged) := by
  simp only [bisection_loop]
  rw [if_neg (not_lt.mpr h1), if_pos h2]

lemma loop_step_left (g : ℚ → ℚ) (tol : ℚ) (n it : ℕ) (a b : ℚ) (hist : List IterationRecord)
    (m : Option ℚ) (h1 : exactTol ≤ |g ((a + b) / 2)|) (h2 : tol ≤ |b - a|)
    (h3 : g a * g ((a + b) / 2) < 0) :
    bisection_loop g tol (n + 1) it a b hist m =
      bisection_loop g tol n (it + 1) a ((a + b) / 2)
        (hist ++ [⟨it, a, b, (a + b) / 2, g ((a + b) / 2), |b - a|⟩]) (some ((a + b) / 2)) := by
  simp only [bisection_loop]
  rw [if_neg (not_lt.mpr h1), if_neg (not_lt.mpr h2), if_pos h3]

lemma loop_step_right (g : ℚ → ℚ) (tol : ℚ) (n it : ℕ) (a b : ℚ) (hist : List IterationRecord)
    (m : Option ℚ) (h1 : exactTol ≤ |g ((a + b) / 2)|) (h2 : tol ≤ |b - a|)
    (h3 : 0 ≤ g a * g ((a + b) / 2)) :
    bisection_loop g tol (n + 1) it a b hist m =
      bisection_loop g tol n (it + 1) ((a + b) / 2) b
        (hist ++ [⟨it, a, b, (a + b) / 2, g ((a + b) / 2), |b - a|⟩]) (some ((a + b) / 2)) := by
  simp only [bisection_loop]
  rw [if_neg (not_lt.mpr h1), if_neg (not_lt.mpr h2), if_neg (not_lt.mpr h3)]

lemma method_of_loop (g : ℚ → ℚ) (a b tol : ℚ) (maxit : ℕ) (root : ℚ)
    (hist : List IterationRecord) (reason : StopReason) (hpre : g a * g b < 0)
    (hloop : bisection_loop g tol maxit 0 a b [] none = (some root, hist, reason)) :
    bisection_method g a b tol maxit = Except.ok (root, hist, reason) := by
  unfold bisection_method
  rw [if_neg (not_le.mpr hpre), hloop]

lemma run_ok (g : ℚ → ℚ) (a b tol : ℚ) (maxit : ℕ) (root : ℚ)
    (hist : List IterationRecord) (reason : StopReason)
    (h : bisection_method g a b tol maxit = Except.ok (root, hist, reason)) :
    g a * g b < 0 ∧ bisection_loop g tol maxit 0 a b [] none = (some root, hist, reason) := by
  unfold bisection_method at h
  by_cases hp : g a * g b ≥ 0
  · rw [if_pos hp] at h
    exact absurd h (by simp)
  · rw [if_neg hp] at h
    refine ⟨not_le.mp hp, ?_⟩
    rcases heq : bisection_loop g tol maxit 0 a b [] none with ⟨m, hs, rs⟩
    rw [heq] at h
    cases m with
    | none => simp at h
    | some mid =>
      simp at h
      obtain ⟨h1, h2, h3⟩ := h
      rw [h1, h2, h3]

lemma half_width_left (a b : ℚ) : |(a + b) / 2 - a| = |b - a| / 2 := by
  rw [show (a + b) / 2 - a = (b - a) / 2 by ring, abs_div, abs_two]

lemma half_width_right (a b : ℚ) : |b - (a + b) / 2| = |b - a| / 2 := by
  rw [show b - (a + b) / 2 = (b - a) / 2 by ring, abs_div, abs_two]

lemma opposite_sign_step (fa fb fm : ℚ) (hab : fa * fb < 0) (hm : 0 ≤ fa * fm)
    (hne : fm ≠ 0) : fm * fb < 0 := by
  rcases mul_neg_iff.mp hab with ⟨ha, hb⟩ | ⟨ha, hb⟩
  · rcases mul_nonneg_iff.mp hm with ⟨_, hm2⟩ | ⟨h1, _⟩
    · exact mul_neg_of_pos_of_neg (lt_of_le_of_ne hm2 (Ne.symm hne)) hb
    · linarith
  · rcases mul_nonneg_iff.mp hm with ⟨h1, _⟩ | ⟨_, hm2⟩
    · linarith
    · exact mul_neg_of_neg_of_pos (lt_of_le_of_ne hm2 hne) hb

lemma exactTol_pos : (0 : ℚ) < exactTol := by norm_num [exactTol]

lemma append_invariants (g : ℚ → ℚ) (it : ℕ) (a b : ℚ) (hist : List IterationRecord)
    (hab : g a * g b < 0) (hP : ∀ r ∈ hist, recordP g r) (hC : List.Chain' errRel hist)
    (hlink : ∀ r, hist.getLast? = some r → r.error = 2 * |b - a|) :
    (∀ r ∈ hist ++ [⟨it, a, b, (a + b) / 2, g ((a + b) / 2), |b - a|⟩], recordP g r) ∧
    List.Chain' errRel (hist ++ [⟨it, a, b, (a + b) / 2, g ((a + b) / 2), |b - a|⟩]) ∧
    (∀ r, (hist ++ [(⟨it, a, b, (a + b) / 2, g ((a + b) / 2), |b - a|⟩ : IterationRecord)]).getLast? =
        some r → r.error = |b - a|) := by
  refine ⟨?_, ?_, ?_⟩
  · intro r hr
    rcases List.mem_append.mp hr with h | h
    · exact hP r h
    · rcases List.mem_singleton.mp h with rfl
      exact ⟨rfl, rfl, rfl, hab⟩
  · rw [List.chain'_append]
    refine ⟨hC, List.chain'_singleton _, ?_⟩
    intro x hx y hy
    simp only [List.head?_cons, Option.mem_def, Option.some.injEq] at hy
    rw [← hy]
    have hx2 : x.error = 2 * |b - a| := hlink x hx
    constructor
    · rw [hx2]
      ring
    · rw [hx2]
      have := abs_nonneg (b - a)
      linarith
  · intro r hr
    rw [List.getLast?_concat] at hr
    obtain rfl := Option.some_inj.mp hr
    rfl

lemma loop_invariants (g : ℚ → ℚ) (tol : ℚ) :
    ∀ fuel it a b hist m, g a * g b < 0 →
      (∀ r ∈ hist, recordP g r) → List.Chain' errRel hist →
      (∀ r, hist.getLast? = some r → r.error = 2 * |b - a|) →
      (∀ r ∈ (bisection_loop g tol fuel it a b hist m).2.1, recordP g r) ∧
      List.Chain' errRel (bisection_loop g tol fuel it a b hist m).2.1 := by
  intro fuel
  induction fuel with
  | zero =>
    intro it a b hist m _ hP hC _
    exact ⟨hP, hC⟩
  | succ n ih =>
    intro it a b hist m hab hP hC hlink
    obtain ⟨hP2, hC2, hlast2⟩ := append_invariants g it a b hist hab hP hC hlink
    by_cases h1 : |g ((a + b) / 2)| < exactTol
    · rw [loop_step_exact g tol n it a b hist m h1]
      exact ⟨hP2, hC2⟩
    · by_cases h2 : |b - a| < tol
      · rw [loop_step_conv g tol n it a b hist m (not_lt.mp h1) h2]
        exact ⟨hP2, hC2⟩
      · by_cases h3 : g a * g ((a + b) / 2) < 0
        · rw [loop_step_left g tol n it a b hist m (not_lt.mp h1) (not_lt.mp h2) h3]
          apply ih (it + 1) a ((a + b) / 2) _ (some ((a + b) / 2)) h3 hP2 hC2
          intro r hr
          rw [hlast2 r hr, half_width_left]
          ring
        · rw [loop_step_right g tol n it a b hist m (not_lt.mp h1) (not_lt.mp h2)
            (not_lt.mp h3)]
          have hne : g ((a + b) / 2) ≠ 0 := by
            intro h0
            rw [h0, abs_zero] at h1
            exact h1 exactTol_pos
          apply ih (it + 1) ((a + b) / 2) b _ (some ((a + b) / 2))
            (opposite_sign_step (g a) (g b) (g ((a + b) / 2)) hab (not_lt.mp h3) hne) hP2 hC2
          intro r hr
          rw [hlast2 r hr, half_width_right]
          ring

lemma loop_progress (g : ℚ → ℚ) (tol : ℚ) :
    ∀ fuel it a b hist m,
      (fuel = 0 ∧ bisection_loop g tol fuel it a b hist m = (m, hist, StopReason.exhausted)) ∨
      (∃ out reason last, bisection_loop g tol fuel it a b hist m =
          (some last.midpoint, out, reason) ∧
        out.getLast? = some last ∧ hist.length + 1 ≤ out.length ∧
        out.length ≤ hist.length + fuel) := by
  intro fuel
  induction fuel with
  | zero =>
    intro it a b hist m
    exact Or.inl ⟨rfl, rfl⟩
  | succ n ih =>
    intro it a b hist m
    right
    by_cases h1 : |g ((a + b) / 2)| < exactTol
    · rw [loop_step_exact g tol n it a b hist m h1]
      refine ⟨_, _, ⟨it, a, b, (a + b) / 2, g ((a + b) / 2), |b - a|⟩, rfl,
        List.getLast?_concat _, ?_, ?_⟩
      · simp only [List.length_append, List.length_cons, List.length_nil]
        omega
      · simp only [List.length_append, List.length_cons, List.length_nil]
        omega
    · by_cases h2 : |b - a| < tol
      · rw [loop_step_conv g tol n it a b hist m (not_lt.mp h1) h2]
        refine ⟨_, _, ⟨it, a, b, (a + b) / 2, g ((a + b) / 2), |b - a|⟩, rfl,
          List.getLast?_concat _, ?_, ?_⟩
        · simp only [List.length_append, List.length_cons, List.length_nil]
          omega
        · simp only [List.length_append, List.length_cons, List.length_nil]
          omega
      · by_cases h3 : g a * g ((a + b) / 2) < 0
        · rw [loop_step_left g tol n it a b hist m (not_lt.mp h1) (not_lt.mp h2) h3]
          rcases ih (it + 1) a ((a + b) / 2)
              (hist ++ [⟨it, a, b, (a + b) / 2, g ((a + b) / 2), |b - a|⟩])
              (some ((a + b) / 2)) with ⟨hn0, heq⟩ | ⟨out, reason, last, heq, hlast, hlb, hub⟩
          · rw [heq]
            refine ⟨_, _, ⟨it, a, b, (a + b) / 2, g ((a + b) / 2), |b - a|⟩, rfl,
              List.getLast?_concat _, ?_, ?_⟩
            · simp only [List.length_append, List.length_cons, List.length_nil]
              omega
            · simp only [List.length_append, List.length_cons, List.length_nil]
              omega
          · rw [heq]
            refine ⟨out, reason, last, rfl, hlast, ?_, ?_⟩
            · simp only [List.length_append, List.length_cons, List.length_nil] at hlb
              omega
            · simp only [List.length_append, List.length_cons, List.length_nil] at hub
              omega
        · rw [loop_step_right g tol n it a b hist m (not_lt.mp h1) (not_lt.mp h2)
            (not_lt.mp h3)]
          rcases ih (it + 1) ((a + b) / 2) b
              (hist ++ [⟨it, a, b, (a + b) / 2, g ((a + b) / 2), |b - a|⟩])
              (some ((a + b) / 2)) with ⟨hn0, heq⟩ | ⟨out, reason, last, heq, hlast, hlb, hub⟩
          · rw [heq]
            refine ⟨_, _, ⟨it, a, b, (a + b) / 2, g ((a + b) / 2), |b - a|⟩, rfl,
              List.getLast?_concat _, ?_, ?_⟩
            · simp only [List.length_append, List.length_cons, List.length_nil]
              omega
            · simp only [List.length_append, List.length_cons, List.length_nil]
              omega
          · rw [heq]
            refine ⟨out, reason, last, rfl, hlast, ?_, ?_⟩
            · simp only [List.length_append, List.length_cons, List.length_nil] at hlb
              omega
            · simp only [List.length_append, List.length_cons, List.length_nil] at hub
              omega

lemma loop_exhausted (g : ℚ → ℚ) (tol : ℚ) :
    ∀ fuel it a b hist m out m2,
      bisection_loop g tol fuel it a b hist m = (m2, out, StopReason.exhausted) →
      out.length = hist.length + fuel := by
  intro fuel
  induction fuel with
  | zero =>
    intro it a b hist m out m2 h
    rw [loop_zero] at h
    simp only [Prod.mk.injEq] at h
    rw [← h.2.1]
    simp
  | succ n ih =>
    intro it a b hist m out m2 h
    by_cases h1 : |g ((a + b) / 2)| < exactTol
    · rw [loop_step_exact g tol n it a b hist m h1] at h
      simp at h
    · by_cases h2 : |b - a| < tol
      · rw [loop_step_conv g tol n it a b hist m (not_lt.mp h1) h2] at h
        simp at h
      · by_cases h3 : g a * g ((a + b) / 2) < 0
        · rw [loop_step_left g tol n it a b hist m (not_lt.mp h1) (not_lt.mp h2) h3] at h
          have := ih (it + 1) a ((a + b) / 2)
            (hist ++ [⟨it, a, b, (a + b) / 2, g ((a + b) / 2), |b - a|⟩])
            (some ((a + b) / 2)) out m2 h
          simp only [List.length_append, List.length_cons, List.length_nil] at this
          omega
        · rw [loop_step_right g tol n it a b hist m (not_lt.mp h1) (not_lt.mp h2)
            (not_lt.mp h3)] at h
          have := ih (it + 1) ((a + b) / 2) b
            (hist ++ [⟨it, a, b, (a + b) / 2, g ((a + b) / 2), |b - a|⟩])
            (some ((a + b) / 2)) out m2 h
          simp only [List.length_append, List.length_cons, List.length_nil] at this
          omega

lemma cube_run :
    bisection_method f (-2) 2 (1 / 1000000) 50 =
      Except.ok (0, [⟨0, -2, 2, 0, 0, 4⟩], StopReason.exactRoot) :=
  method_of_loop f (-2) 2 (1 / 1000000) 50 0 [⟨0, -2, 2, 0, 0, 4⟩] StopReason.exactRoot
    (by norm_num [f])
    (Eq.trans (loop_step_exact f (1 / 1000000) 49 0 (-2) 2 [] none (by norm_num [f, exactTol]))
      (by norm_num [f]))

lemma id_run_single :
    bisection_method (fun x : ℚ => x) (-1) 1 (1 / 1000000) 50 =
      Except.ok (0, [⟨0, -1, 1, 0, 0, 2⟩], StopReason.exactRoot) :=
  method_of_loop (fun x : ℚ => x) (-1) 1 (1 / 1000000) 50 0 [⟨0, -1, 1, 0, 0, 2⟩]
    StopReason.exactRoot (by norm_num)
    (Eq.trans (loop_step_exact (fun x : ℚ => x) (1 / 1000000) 49 0 (-1) 1 [] none
      (by norm_num [exactTol])) (by norm_num))

lemma id_loop3 :
    bisection_loop (fun x : ℚ => x) 1 3 0 (-1) 2 [] none =
      (some (1/8), [⟨0, -1, 2, 1/2, 1/2, 3⟩, ⟨1, -1, 1/2, -1/4, -1/4, 3/2⟩,
        ⟨2, -1/4, 1/2, 1/8, 1/8, 3/4⟩], StopReason.converged) := by
  have s1 : bisection_loop (fun x : ℚ => x) 1 3 0 (-1) 2 [] none =
      bisection_loop (fun x : ℚ => x) 1 2 1 (-1) (1/2)
        [⟨0, -1, 2, 1/2, 1/2, 3⟩] (some (1/2)) :=
    Eq.trans (loop_step_left (fun x : ℚ => x) 1 2 0 (-1) 2 [] none
        (by norm_num [exactTol, abs_of_nonneg]) (by norm_num [abs_of_nonneg]) (by norm_num))
      (by norm_num [abs_of_nonneg])
  have s2 : bisection_loop (fun x : ℚ => x) 1 2 1 (-1) (1/2)
        [⟨0, -1, 2, 1/2, 1/2, 3⟩] (some (1/2)) =
      bisection_loop (fun x : ℚ => x) 1 1 2 (-1/4) (1/2)
        [⟨0, -1, 2, 1/2, 1/2, 3⟩, ⟨1, -1, 1/2, -1/4, -1/4, 3/2⟩] (some (-1/4)) :=
    Eq.trans (loop_step_right (fun x : ℚ => x) 1 1 1 (-1) (1/2) _ _
        (by norm_num [exactTol, abs_of_nonpos]) (by norm_num [abs_of_nonneg]) (by norm_num))
      (by norm_num [abs_of_nonneg, abs_of_nonpos])
  have s3 : bisection_loop (fun x : ℚ => x) 1 1 2 (-1/4) (1/2)
        [⟨0, -1, 2, 1/2, 1/2, 3⟩, ⟨1, -1, 1/2, -1/4, -1/4, 3/2⟩] (some (-1/4)) =
      (some (1/8), [⟨0, -1, 2, 1/2, 1/2, 3⟩, ⟨1, -1, 1/2, -1/4, -1/4, 3/2⟩,
        ⟨2, -1/4, 1/2, 1/8, 1/8, 3/4⟩], StopReason.converged) :=
    Eq.trans (loop_step_conv (fun x : ℚ => x) 1 0 2 (-1/4) (1/2) _ _
        (by norm_num [exactTol, abs_of_nonneg]) (by norm_num [abs_of_nonneg]))
      (by norm_num [abs_of_nonneg])
  exact s1.trans (s2.trans s3)

lemma id_run3 :
    bisection_method (fun x : ℚ => x) (-1) 2 1 3 =
      Except.ok (1/8, [⟨0, -1, 2, 1/2, 1/2, 3⟩, ⟨1, -1, 1/2, -1/4, -1/4, 3/2⟩,
        ⟨2, -1/4, 1/2, 1/8, 1/8, 3/4⟩], StopReason.converged) :=
  method_of_loop (fun x : ℚ => x) (-1) 2 1 3 (1/8)
    [⟨0, -1, 2, 1/2, 1/2, 3⟩, ⟨1, -1, 1/2, -1/4, -1/4, 3/2⟩, ⟨2, -1/4, 1/2, 1/8, 1/8, 3/4⟩]
    StopReason.converged (by norm_num) id_loop3

lemma id_run_exhaust :
    bisection_method (fun x : ℚ => x) (-1) 2 (1 / 10 ^ 12) 1 =
      Except.ok (1/2, [⟨0, -1, 2, 1/2, 1/2, 3⟩], StopReason.exhausted) :=
  method_of_loop (fun x : ℚ => x) (-1) 2 (1 / 10 ^ 12) 1 (1/2) [⟨0, -1, 2, 1/2, 1/2, 3⟩]
    StopReason.exhausted (by norm_num)
    (Eq.trans (loop_step_left (fun x : ℚ => x) (1 / 10 ^ 12) 0 0 (-1) 2 [] none
        (by norm_num [exactTol, abs_of_nonneg]) (by norm_num [abs_of_nonneg]) (by norm_num))
      (by norm_num [bisection_loop, abs_of_nonneg]))

/-- C1: for the fixed scenario `f(x) = x³ + 4x`, bracket `[-2, 2]`, tolerance
`1e-6`, `max_iterations = 50`, `bisection_method` returns a root within
`1e-6` of `0` and a history of length at most 50; in fact the first midpoint
is `0` exactly, the exact-root short-circuit fires on iteration 0, and the
history has length 1. -/
theorem claim_C1 :
    ∃ root hist,
      bisection_method f (-2) 2 (1 / 1000000) 50 =
        Except.ok (root, hist, StopReason.exactRoot) ∧
      |root - 0| ≤ 1 / 1000000 ∧ hist.length ≤ 50 ∧ hist.length = 1 ∧ root = 0 :=
  ⟨0, [⟨0, -2, 2, 0, 0, 4⟩], cube_run, by norm_num, by norm_num, rfl, rfl⟩

/-- C2: for every function and bounds, `bisection_method` fails with the
invalid-bracket error carrying both bound values and their function values
exactly when `f(low) * f(high) >= 0`; the check sits before the loop, so on
failure no iteration runs and no history record is produced. -/
theorem claim_C2 (g : ℚ → ℚ) (a b tol : ℚ) (maxit : ℕ) :
    bisection_method g a b tol maxit =
      Except.error (PyError.invalidBracket a (g a) b (g b)) ↔ 0 ≤ g a * g b := by
  constructor
  · intro h
    by_contra hn
    unfold bisection_method at h
    rw [if_neg hn] at h
    rcases heq : bisection_loop g tol maxit 0 a b [] none with ⟨m, hs, rs⟩
    rw [heq] at h
    cases m with
    | none => simp at h
    | some mid => simp at h
  · intro h
    unfold bisection_method
    rw [if_pos h]

/-- C2 witness: the spec's own example `f(x) = x² + 1` on `[-2, 2]` (function
values 5 and 5, product nonnegative) raises the invalid-bracket error. -/
theorem claim_C2_witness :
    bisection_method (fun x : ℚ => x ^ 2 + 1) (-2) 2 1 5 =
      Except.error (PyError.invalidBracket (-2) ((fun x : ℚ => x ^ 2 + 1) (-2)) 2
        ((fun x : ℚ => x ^ 2 + 1) 2)) :=
  (claim_C2 (fun x : ℚ => x ^ 2 + 1) (-2) 2 1 5).mpr (by norm_num)

/-- C3: on every loop pass the two stopping checks run in order after the
record is appended: if `|f_mid| < 1e-15` the loop stops as an exact root
regardless of `error` and the tolerance; otherwise, if `error < tolerance`
it stops as converged with the midpoint accepted even though `f_mid` may be
nonzero.  In particular `f(x) = x` on `[-1, 1]` stops on iteration 0 with a
history of length 1. -/
theorem claim_C3 (g : ℚ → ℚ) (tol : ℚ) (n it : ℕ) (a b : ℚ) (hist : List IterationRecord)
    (m : Option ℚ) :
    (|g ((a + b) / 2)| < exactTol →
      bisection_loop g tol (n + 1) it a b hist m =
        (some ((a + b) / 2), hist ++ [⟨it, a, b, (a + b) / 2, g ((a + b) / 2), |b - a|⟩],
          StopReason.exactRoot)) ∧
    (exactTol ≤ |g ((a + b) / 2)| → |b - a| < tol →
      bisection_loop g tol (n + 1) it a b hist m =
        (some ((a + b) / 2), hist ++ [⟨it, a, b, (a + b) / 2, g ((a + b) / 2), |b - a|⟩],
          StopReason.converged)) ∧
    bisection_method (fun x : ℚ => x) (-1) 1 (1 / 1000000) 50 =
      Except.ok (0, [⟨0, -1, 1, 0, 0, 2⟩], StopReason.exactRoot) :=
  ⟨loop_step_exact g tol n it a b hist m, loop_step_conv g tol n it a b hist m, id_run_single⟩

/-- C3 witness: instantiating the exact-root conjunct at the zero function on
`[-1, 1]` with tolerance 1 (so the short-circuit fires although the
tolerance check would not). -/
theorem claim_C3_witness :
    bisection_loop (fun _ : ℚ => (0 : ℚ)) 1 1 0 (-1) 1 [] none =
      (some 0, [⟨0, -1, 1, 0, 0, 2⟩], StopReason.exactRoot) :=
  Eq.trans ((claim_C3 (fun _ : ℚ => (0 : ℚ)) 1 0 0 (-1) 1 [] none).1 (by norm_num [exactTol]))
    (by norm_num)

/-- C4: on every pass that reaches the narrowing step (neither stop check
fired), the bracket is updated by: if `f(low) * f_mid < 0` strictly then
`high` becomes the midpoint with `low` unchanged; otherwise — product zero
or positive — `low` becomes the midpoint with `high` unchanged, so a zero
product takes the move-low-up branch. -/
theorem claim_C4 (g : ℚ → ℚ) (tol : ℚ) (n it : ℕ) (a b : ℚ) (hist : List IterationRecord)
    (m : Option ℚ) (h1 : exactTol ≤ |g ((a + b) / 2)|) (h2 : tol ≤ |b - a|) :
    (g a * g ((a + b) / 2) < 0 →
      bisection_loop g tol (n + 1) it a b hist m =
        bisection_loop g tol n (it + 1) a ((a + b) / 2)
          (hist ++ [⟨it, a, b, (a + b) / 2, g ((a + b) / 2), |b - a|⟩])
          (some ((a + b) / 2))) ∧
    (0 ≤ g a * g ((a + b) / 2) →
      bisection_loop g tol (n + 1) it a b hist m =
        bisection_loop g tol n (it + 1) ((a + b) / 2) b
          (hist ++ [⟨it, a, b, (a + b) / 2, g ((a + b) / 2), |b - a|⟩])
          (some ((a + b) / 2))) :=
  ⟨loop_step_left g tol n it a b hist m h1 h2, loop_step_right g tol n it a b hist m h1 h2⟩

/-- C4 witness: `f(x) = x` on `[-2, 1]` with tolerance 1: the midpoint is
`-1/2`, the product `f(-2) · f(-1/2) = 1` is nonnegative, and the pass moves
`low` up to the midpoint. -/
theorem claim_C4_witness :
    bisection_loop (fun x : ℚ => x) 1 2 0 (-2) 1 [] none =
      bisection_loop (fun x : ℚ => x) 1 1 1 (-1/2) 1 [⟨0, -2, 1, -1/2, -1/2, 3⟩]
        (some (-1/2)) :=
  Eq.trans ((claim_C4 (fun x : ℚ => x) 1 1 0 (-2) 1 [] none
      (by norm_num [exactTol, abs_of_nonpos]) (by norm_num [abs_of_nonneg])).2 (by norm_num))
    (by norm_num [abs_of_nonneg, abs_of_nonpos])

/-- C5: bracket invariant — in every run that returns normally (so whose
precondition check passed), every history record's `(a, b)` pair satisfied
`f(a) * f(b) < 0` at entry to its pass, before that pass's narrowing step. -/
theorem claim_C5 (g : ℚ → ℚ) (a b tol : ℚ) (maxit : ℕ) (root : ℚ)
    (hist : List IterationRecord) (reason : StopReason)
    (h : bisection_method g a b tol maxit = Except.ok (root, hist, reason)) :
    ∀ r ∈ hist, g r.a * g r.b < 0 := by
  obtain ⟨hpre, hloop⟩ := run_ok g a b tol maxit root hist reason h
  have hinv := loop_invariants g tol maxit 0 a b [] none hpre (by simp) (by simp) (by simp)
  rw [hloop] at hinv
  intro r hr
  exact (hinv.1 r hr).2.2.2

/-- C5 witness: the fixed cubic scenario's single record has bracket
`(-2, 2)` with `f(-2) · f(2) = -256 < 0`. -/
theorem claim_C5_witness :
    f ((⟨0, -2, 2, 0, 0, 4⟩ : IterationRecord).a) *
      f ((⟨0, -2, 2, 0, 0, 4⟩ : IterationRecord).b) < 0 :=
  claim_C5 f (-2) 2 (1 / 1000000) 50 0 [⟨0, -2, 2, 0, 0, 4⟩] StopReason.exactRoot cube_run
    ⟨0, -2, 2, 0, 0, 4⟩ (by simp)

/-- C6: monotone shrink — in every run's history, successive records' error
values are non-increasing and each equals exactly half the previous record's
error. -/
theorem claim_C6 (g : ℚ → ℚ) (a b tol : ℚ) (maxit : ℕ) (root : ℚ)
    (hist : List IterationRecord) (reason : StopReason)
    (h : bisection_method g a b tol maxit = Except.ok (root, hist, reason)) :
    List.Chain' (fun r r2 => r2.error = r.error / 2 ∧ r2.error ≤ r.error) hist := by
  obtain ⟨hpre, hloop⟩ := run_ok g a b tol maxit root hist reason h
  have hinv := loop_invariants g tol maxit 0 a b [] none hpre (by simp) (by simp) (by simp)
  rw [hloop] at hinv
  exact hinv.2

/-- C6 witness: a three-iteration run of `f(x) = x` on `[-1, 2]` whose error
column reads 3, 3/2, 3/4. -/
theorem claim_C6_witness :
    List.Chain' (fun r r2 => r2.error = r.error / 2 ∧ r2.error ≤ r.error)
      ([⟨0, -1, 2, 1/2, 1/2, 3⟩, ⟨1, -1, 1/2, -1/4, -1/4, 3/2⟩,
        ⟨2, -1/4, 1/2, 1/8, 1/8, 3/4⟩] : List IterationRecord) :=
  claim_C6 (fun x : ℚ => x) (-1) 2 1 3 (1/8)
    [⟨0, -1, 2, 1/2, 1/2, 3⟩, ⟨1, -1, 1/2, -1/4, -1/4, 3/2⟩, ⟨2, -1/4, 1/2, 1/8, 1/8, 3/4⟩]
    StopReason.converged id_run3

/-- C7 counterexample: with `max_iterations = 0` the precondition passes
(`f(-1) · f(2) = -2 < 0` for `f(x) = x`) yet `bisection_method` does not
return a pair: the loop body never assigns `midpoint`, and line 77 raises
`UnboundLocalError`. -/
theorem claim_C7_counterexample :
    (fun x : ℚ => x) (-1) * (fun x : ℚ => x) 2 < 0 ∧
    bisection_method (fun x : ℚ => x) (-1) 2 1 0 = Except.error PyError.unboundLocal := by
  refine ⟨by norm_num, ?_⟩
  unfold bisection_method
  rw [if_neg (by norm_num : ¬((fun x : ℚ => x) (-1) * (fun x : ℚ => x) 2 ≥ 0))]
  rfl

/-- C7 (amended): for every input with `max_iterations ≥ 1` on which the
precondition check passes, `bisection_method` returns a `(root, history)`
pair where the history has at least 1 and at most `max_iterations` entries
and the root equals the midpoint field of the last record appended. -/
theorem claim_C7_amended_thm (g : ℚ → ℚ) (a b tol : ℚ) (maxit : ℕ)
    (hpre : g a * g b < 0) (hmax : 1 ≤ maxit) :
    ∃ root hist reason last,
      bisection_method g a b tol maxit = Except.ok (root, hist, reason) ∧
      1 ≤ hist.length ∧ hist.length ≤ maxit ∧ hist.getLast? = some last ∧
      root = last.midpoint := by
  rcases loop_progress g tol maxit 0 a b [] none with ⟨h0, _⟩ |
    ⟨out, reason, last, heq, hlast, hlb, hub⟩
  · omega
  · refine ⟨last.midpoint, out, reason, last, ?_, ?_, ?_, hlast, rfl⟩
    · exact method_of_loop g a b tol maxit last.midpoint out reason hpre heq
    · simpa using hlb
    · simpa using hub

/-- C7 witness: instantiating the amended claim on `f(x) = x`, bracket
`[-1, 2]`, tolerance 1, `max_iterations = 3`. -/
theorem claim_C7_witness :
    ∃ root hist reason last,
      bisection_method (fun x : ℚ => x) (-1) 2 1 3 = Except.ok (root, hist, reason) ∧
      1 ≤ hist.length ∧ hist.length ≤ 3 ∧ hist.getLast? = some last ∧
      root = last.midpoint :=
  claim_C7_amended_thm (fun x : ℚ => x) (-1) 2 1 3 (by norm_num) (by norm_num)

/-- C8: exhaustion is not an error — a run that ends with the max-iterations
banner returns normally with exactly `max_iterations` records and the last
computed midpoint as root; concretely, `f(x) = x` on `[-1, 2]` with tolerance
`1e-12` and `max_iterations = 1` yields exactly one record and a normal
result carrying the advisory exhaustion signal. -/
theorem claim_C8 :
    (∀ (g : ℚ → ℚ) (a b tol : ℚ) (maxit : ℕ) (root : ℚ) (hist : List IterationRecord),
      bisection_method g a b tol maxit = Except.ok (root, hist, StopReason.exhausted) →
      hist.length = maxit ∧ ∃ last, hist.getLast? = some last ∧ root = last.midpoint) ∧
    bisection_method (fun x : ℚ => x) (-1) 2 (1 / 10 ^ 12) 1 =
      Except.ok (1/2, [⟨0, -1, 2, 1/2, 1/2, 3⟩], StopReason.exhausted) := by
  constructor
  · intro g a b tol maxit root hist h
    obtain ⟨hpre, hloop⟩ := run_ok g a b tol maxit root hist StopReason.exhausted h
    constructor
    · have := loop_exhausted g tol maxit 0 a b [] none hist (some root) hloop
      simpa using this
    · rcases loop_progress g tol maxit 0 a b [] none with ⟨h0, heq⟩ |
        ⟨out, reason, last, heq, hlast, _, _⟩
      · rw [heq] at hloop
        simp at hloop
      · rw [heq] at hloop
        simp only [Prod.mk.injEq, Option.some.injEq] at hloop
        obtain ⟨h1, h2, _⟩ := hloop
        refine ⟨last, ?_, h1.symm⟩
        rw [← h2]
        exact hlast
  · exact id_run_exhaust

/-- C8 witness: the concrete exhaustion run of the second conjunct,
instantiating the first: one record, root equal to its midpoint. -/
theorem claim_C8_witness :
    ([⟨0, -1, 2, 1/2, 1/2, 3⟩] : List IterationRecord).length = 1 ∧
    ∃ last, ([⟨0, -1, 2, 1/2, 1/2, 3⟩] : List IterationRecord).getLast? = some last ∧
      (1/2 : ℚ) = last.midpoint :=
  claim_C8.1 (fun x : ℚ => x) (-1) 2 (1 / 10 ^ 12) 1 (1/2) [⟨0, -1, 2, 1/2, 1/2, 3⟩]
    claim_C8.2

/-- C9 (code bug): line 171 reads `if NameError== "__main__":`, comparing the
builtin exception class to a string, which is `False` in every execution
context; executing the module directly therefore runs nothing — `main()`,
and with it the fixed scenario, is never invoked. -/
theorem claim_C9 : executed_directly = none ∧ module_guard_fires = false := ⟨rfl, rfl⟩

/-- C10: under the precondition and exact arithmetic the zero-product
tie-break never occurs — for every record of a normally-returning run on
which the exact-root check failed (the only records whose pass can reach the
narrowing step), `f(a) * f_mid` is nonzero. -/
theorem claim_C10 (g : ℚ → ℚ) (a b tol : ℚ) (maxit : ℕ) (root : ℚ)
    (hist : List IterationRecord) (reason : StopReason)
    (h : bisection_method g a b tol maxit = Except.ok (root, hist, reason)) :
    ∀ r ∈ hist, exactTol ≤ |r.f_mid| → g r.a * r.f_mid ≠ 0 := by
  obtain ⟨hpre, hloop⟩ := run_ok g a b tol maxit root hist reason h
  have hinv := loop_invariants g tol maxit 0 a b [] none hpre (by simp) (by simp) (by simp)
  rw [hloop] at hinv
  intro r hr hge
  obtain ⟨_, _, _, hbr⟩ := hinv.1 r hr
  have hfa : g r.a ≠ 0 := by
    intro h0
    rw [h0, zero_mul] at hbr
    exact lt_irrefl 0 hbr
  have hfm : r.f_mid ≠ 0 := by
    intro h0
    rw [h0, abs_zero] at hge
    exact absurd hge (not_le.mpr exactTol_pos)
  exact mul_ne_zero hfa hfm

/-- C10 witness: the first record of the three-iteration run of `f(x) = x`
on `[-1, 2]` has `|f_mid| = 1/2 ≥ 1e-15`, and its product `f(a) · f_mid` is
nonzero. -/
theorem claim_C10_witness :
    (fun x : ℚ => x) ((⟨0, -1, 2, 1/2, 1/2, 3⟩ : IterationRecord).a) *
      (⟨0, -1, 2, 1/2, 1/2, 3⟩ : IterationRecord).f_mid ≠ 0 :=
  claim_C10 (fun x : ℚ => x) (-1) 2 1 3 (1/8)
    [⟨0, -1, 2, 1/2, 1/2, 3⟩, ⟨1, -1, 1/2, -1/4, -1/4, 3/2⟩, ⟨2, -1/4, 1/2, 1/8, 1/8, 3/4⟩]
    StopReason.converged id_run3 ⟨0, -1, 2, 1/2, 1/2, 3⟩ (by simp)
    (by norm_num [exactTol, abs_of_nonneg])
